import Mathlib

/-!
Verification of the xnatio DICOM ingestion pipeline core.

This file gives a shallow embedding, in Lean 4, of the pure/abstracted
behaviour of the following parts of the `xnatio` Python code base, and proves
the specification claims about them:

* `xnatio/uploaders/common.py` — `split_into_batches` (round-robin batching);
* `xnatio/uploaders/parallel_rest.py` — `upload_dicom_parallel_rest` and
  `upload_batch` (parallel REST import pipeline), with concurrency abstracted
  to an explicit completion-order parameter;
* `xnatio/services/base.py` — `XNATConnection.retry_on_network_error`;
* `xnatio/uploaders/dicom_store.py` — `send_batch` / `send_dicom_store`
  (DICOM C-STORE sender), with per-file I/O outcomes abstracted;
* `xnatio/services/downloads.py` — `extract_session_downloads`, whose ZIP
  extraction delegates to CPython `zipfile.ZipFile.extractall`
  (member-name sanitization modelled from CPython `_extract_member`);
* `xnatio/services/scans.py` — `ScanService.list_scans` and
  `ScanService.delete_scans`;
* `xnatio/core/validation.py` — `validate_server_url`,
  `validate_xnat_identifier` / `validate_scan_id`, together with the fragment
  of CPython `urllib.parse.urlsplit` that `validate_server_url` relies on.

Side-effecting operations (HTTP calls, DICOM associations, file I/O) are
abstracted as explicit outcome parameters; thread pools are modelled by an
explicit completion-order list, assumed to be a permutation of the submitted
job indices (which is exactly what `concurrent.futures.as_completed`
guarantees).  Python strings are modelled by `List Char` / `String`; the
embedding of character classes (`str.isdigit`, `str.strip`, regex `\d`)
covers the ASCII range (the Python originals also accept some non-ASCII
Unicode characters).
-/

namespace Xnatio

/-! ## Batch splitter: `xnatio/uploaders/common.py`, `split_into_batches` -/

/-- Python `batches[i].append(x)`: append `x` to the `i`-th inner list, leaving the
other lists untouched (out-of-range `i` leaves the list unchanged, which never
happens in the uses below). -/
def appendAt (bs : List (List α)) (i : Nat) (x : α) : List (List α) :=
  match bs, i with
  | [], _ => []
  | b :: rest, 0 => (b ++ [x]) :: rest
  | b :: rest, Nat.succ j => b :: appendAt rest j x

/-- The loop `for idx, file_path in enumerate(files): batches[idx % actual].append(file_path)`
starting from an arbitrary state `bs`. -/
def rrDistribute (actual : Nat) (bs : List (List α)) : List (Nat × α) → List (List α)
  | [] => bs
  | p :: rest => rrDistribute actual (appendAt bs (p.1 % actual) p.2) rest

/-- Function `split_into_batches(files, num_batches)` from `xnatio/uploaders/common.py`.
`num_batches` is a Python `int`, hence `Int` here. -/
def split_into_batches (files : List α) (num_batches : Int) : List (List α) :=
  if files.isEmpty then []
  else if num_batches ≤ 0 then [files]
  else
    let actual := min num_batches.toNat files.length
    rrDistribute actual (List.replicate actual ([] : List α)) files.enum

theorem length_appendAt (bs : List (List α)) (i : Nat) (x : α) :
    (appendAt bs i x).length = bs.length := by
  induction bs generalizing i with
  | nil => rfl
  | cons b rest ih =>
    cases i with
    | zero => rfl
    | succ j => simp [appendAt, ih]

theorem getElem?_appendAt (bs : List (List α)) (i : Nat) (x : α) (j : Nat) :
    (appendAt bs i x)[j]? = if i = j then bs[j]?.map (· ++ [x]) else bs[j]? := by
  induction bs generalizing i j with
  | nil => simp [appendAt]
  | cons b rest ih =>
    cases i with
    | zero =>
      cases j with
      | zero => simp [appendAt]
      | succ m => simp [appendAt]
    | succ k =>
      cases j with
      | zero => simp [appendAt]
      | succ m =>
        simp only [appendAt, List.getElem?_cons_succ]
        rw [ih]
        by_cases h : k = m
        · simp [h]
        · simp [h, fun hh => h (Nat.succ_injective hh)]

theorem length_rrDistribute (actual : Nat) (bs : List (List α)) (l : List (Nat × α)) :
    (rrDistribute actual bs l).length = bs.length := by
  induction l generalizing bs with
  | nil => rfl
  | cons p rest ih => simp [rrDistribute, ih, length_appendAt]

/-- Characterization of the distribution loop: batch `j` ends up holding its
initial content followed by the second components of all pairs whose first
component is congruent to `j` modulo `actual`. -/
theorem getElem?_rrDistribute (actual : Nat) (bs : List (List α)) (l : List (Nat × α)) (j : Nat) :
    (rrDistribute actual bs l)[j]? =
      bs[j]?.map (· ++ (l.filter (fun p => p.1 % actual = j)).map Prod.snd) := by
  induction l generalizing bs with
  | nil =>
    cases hb : bs[j]? <;> simp [rrDistribute, hb]
  | cons p rest ih =>
    simp only [rrDistribute]
    rw [ih, getElem?_appendAt]
    by_cases h : p.1 % actual = j <;> cases hb : bs[j]? <;>
      simp [h, List.filter_cons]

theorem length_split_into_batches (files : List α) (num_batches : Int)
    (hf : files ≠ []) (hN : 1 ≤ num_batches) :
    (split_into_batches files num_batches).length = min num_batches.toNat files.length := by
  rw [split_into_batches, if_neg (by simpa using hf), if_neg (by omega)]
  rw [length_rrDistribute, List.length_replicate]

theorem getElem?_split_into_batches (files : List α) (num_batches : Int)
    (hf : files ≠ []) (hN : 1 ≤ num_batches) (j : Nat)
    (hj : j < min num_batches.toNat files.length) :
    (split_into_batches files num_batches)[j]? =
      some ((files.enum.filter
        (fun p => p.1 % (min num_batches.toNat files.length) = j)).map Prod.snd) := by
  rw [split_into_batches, if_neg (by simpa using hf), if_neg (by omega)]
  rw [getElem?_rrDistribute]
  rw [List.getElem?_replicate, if_pos hj]
  rfl

/-- Sum over `range n` of an indicator supported on a single index. -/
theorem sum_map_range_single (n k c : Nat) :
    ((List.range n).map (fun b => if k = b then c else 0)).sum = if k < n then c else 0 := by
  induction n with
  | zero => simp
  | succ m ih =>
    rw [List.range_succ, List.map_append, List.sum_append, ih]
    by_cases h : k < m
    · simp [h, Nat.lt_succ_of_lt h, Nat.ne_of_lt h]
    · by_cases he : k = m
      · subst he
        simp [Nat.lt_irrefl, Nat.lt_succ_self]
      · have : ¬k < m + 1 := by omega
        simp [h, he, this]

theorem count_filter_eq_ite [DecidableEq β] (l : List β) (p : β → Bool) (a : β) :
    (l.filter p).count a = if p a then l.count a else 0 := by
  by_cases h : p a
  · rw [if_pos h, List.count_filter h]
  · rw [if_neg h, List.count_eq_zero]
    intro hm
    exact h (List.of_mem_filter hm)

/-- Partitioning a list into its classes under `f` (for class indices below `n`)
and concatenating the classes back is a permutation of the list. -/
theorem flatten_classes_perm [DecidableEq β] (f : β → Nat) (n : Nat) (l : List β)
    (h : ∀ x ∈ l, f x < n) :
    ((List.range n).map (fun b => l.filter (fun x => f x = b))).flatten.Perm l := by
  rw [List.perm_iff_count]
  intro a
  rw [List.count_flatten, List.map_map]
  have hmap : ((List.range n).map (List.count a ∘ fun b => l.filter (fun x => f x = b)))
      = (List.range n).map (fun b => if f a = b then l.count a else 0) := by
    apply List.map_congr_left
    intro b _
    simp only [Function.comp_apply]
    rw [count_filter_eq_ite]
    simp
  rw [hmap, sum_map_range_single]
  by_cases ha : a ∈ l
  · rw [if_pos (h a ha)]
  · rw [List.count_eq_zero_of_not_mem ha]
    simp

/-- Number of `i < L` with `i % n = b`. -/
def modCount (L n b : Nat) : Nat :=
  ((List.range L).filter (fun i => i % n = b)).length

theorem modCount_succ (L n b : Nat) :
    modCount (L + 1) n b = modCount L n b + (if L % n = b then 1 else 0) := by
  unfold modCount
  rw [List.range_succ, List.filter_append, List.length_append]
  by_cases h : L % n = b <;> simp [h]

theorem modCount_formula (n : Nat) (hn : 0 < n) (L b : Nat) (hb : b < n) :
    modCount L n b = L / n + (if b < L % n then 1 else 0) := by
  induction L with
  | zero =>
    simp [modCount, Nat.zero_div, Nat.zero_mod]
  | succ L ih =>
    rw [modCount_succ, ih]
    have hmod : L % n + n * (L / n) = L := Nat.mod_add_div L n
    have hmlt : L % n < n := Nat.mod_lt L hn
    rcases Nat.lt_or_ge (L % n + 1) n with h | h
    · have hdm : (L + 1) / n = L / n ∧ (L + 1) % n = L % n + 1 :=
        (Nat.div_mod_unique hn).mpr (by omega)
      rw [hdm.1, hdm.2]
      rcases Nat.lt_trichotomy b (L % n) with h1 | h1 | h1
      · rw [if_pos h1, if_neg (by omega), if_pos (by omega)]
      · rw [if_neg (by omega), if_pos (by omega), if_pos (by omega)]
      · rw [if_neg (by omega), if_neg (by omega), if_neg (by omega)]
    · have heq : L % n + 1 = n := by omega
      have hmul : n * (L / n + 1) = n * (L / n) + n := Nat.mul_succ n (L / n)
      have hdm : (L + 1) / n = L / n + 1 ∧ (L + 1) % n = 0 :=
        (Nat.div_mod_unique hn).mpr (by omega)
      rw [hdm.1, hdm.2]
      rcases Nat.lt_trichotomy b (L % n) with h1 | h1 | h1
      · rw [if_pos h1, if_neg (by omega), if_neg (by omega)]
      · rw [if_neg (by omega), if_pos (by omega), if_neg (by omega)]
      · omega

/-- Filtering the enumeration by a predicate on indices counts exactly the
indices below the length satisfying the predicate. -/
theorem length_filter_enum (l : List α) (q : Nat → Bool) :
    (l.enum.filter (fun p => q p.1)).length = ((List.range l.length).filter q).length := by
  have h := List.filter_map (p := q) (f := Prod.fst) (l := l.enum)
  have h2 := congrArg List.length h
  rw [List.enum_map_fst, List.length_map] at h2
  rw [h2]
  rfl

theorem mem_enum_fst_lt (l : List α) (p : Nat × α) (hp : p ∈ l.enum) :
    p.1 < l.length ∧ l[p.1]? = some p.2 := by
  obtain ⟨k, hk, hget⟩ := List.getElem_of_mem hp
  rw [List.getElem_enum] at hget
  have hkl : k < l.length := by
    have := hk
    rw [List.enum_length] at this
    exact this
  refine ⟨by rw [← hget]; exact hkl, ?_⟩
  rw [← hget]
  simp [List.getElem?_eq_getElem hkl]

/-- Closed form of `split_into_batches` in the main branch. -/
theorem split_into_batches_eq_map (files : List α) (num_batches : Int)
    (hf : files ≠ []) (hN : 1 ≤ num_batches) :
    split_into_batches files num_batches =
      (List.range (min num_batches.toNat files.length)).map
        (fun j => (files.enum.filter
          (fun p => p.1 % (min num_batches.toNat files.length) = j)).map Prod.snd) := by
  apply List.ext_getElem?
  intro j
  by_cases hj : j < min num_batches.toNat files.length
  · rw [getElem?_split_into_batches files num_batches hf hN j hj]
    rw [List.getElem?_map, List.getElem?_range hj]
    rfl
  · rw [List.getElem?_eq_none, List.getElem?_eq_none]
    · rw [List.length_map, List.length_range]
      omega
    · rw [length_split_into_batches files num_batches hf hN]
      omega

/-- Concatenating the batches of `split_into_batches` permutes the input,
for every `num_batches` (the `num_batches ≤ 0` branch returns the single
batch `[files]`). -/
theorem split_flatten_perm [DecidableEq α] (files : List α) (num_batches : Int)
    (hf : files ≠ []) :
    (split_into_batches files num_batches).flatten.Perm files := by
  by_cases hnb : num_batches ≤ 0
  · rw [split_into_batches, if_neg (by simpa using hf), if_pos hnb]
    simp
  · have hN : (1 : Int) ≤ num_batches := by omega
    set n := min num_batches.toNat files.length with hn_def
    have hL : 0 < files.length := List.length_pos.mpr hf
    have hn : 0 < n := by
      have : (1 : Nat) ≤ num_batches.toNat := by omega
      omega
    rw [split_into_batches_eq_map files num_batches hf hN]
    have hclasses : ((List.range n).map
        (fun j => files.enum.filter (fun p => p.1 % n = j))).flatten.Perm files.enum := by
      apply flatten_classes_perm
      intro p hp
      exact Nat.mod_lt _ hn
    have hmapped := hclasses.map Prod.snd
    rw [List.map_flatten, List.map_map, List.enum_map_snd] at hmapped
    exact hmapped

theorem batch_length (files : List α) (num_batches : Int)
    (hf : files ≠ []) (hN : 1 ≤ num_batches) (j : Nat)
    (hj : j < min num_batches.toNat files.length) :
    ((split_into_batches files num_batches)[j]?.getD []).length =
      modCount files.length (min num_batches.toNat files.length) j := by
  rw [getElem?_split_into_batches files num_batches hf hN j hj]
  simp only [Option.getD_some, List.length_map]
  exact length_filter_enum files (fun i => decide (i % (min num_batches.toNat files.length) = j))

/-- Claim C2: round-robin batch splitting.  With a non-empty file list and
`requested_batches = N ≥ 1`, `split_into_batches` produces
`min(N, len(files))` batches; file `i` lands in batch `i mod count`;
the concatenation of the batches is a permutation of the input; any two
batch sizes differ by at most one; an empty file list gives an empty result
and `requested_batches ≤ 0` gives a single batch holding all files. -/
theorem claim_C2 [DecidableEq α] (files : List α) (num_batches : Int)
    (hf : files ≠ []) (hN : 1 ≤ num_batches) :
    (split_into_batches files num_batches).length = min num_batches.toNat files.length
    ∧ (∀ p ∈ files.enum,
        p.2 ∈ (split_into_batches files num_batches).getD
          (p.1 % min num_batches.toNat files.length) [])
    ∧ (split_into_batches files num_batches).flatten.Perm files
    ∧ (∀ b1 ∈ split_into_batches files num_batches,
        ∀ b2 ∈ split_into_batches files num_batches, b1.length ≤ b2.length + 1)
    ∧ split_into_batches ([] : List α) num_batches = []
    ∧ (∀ nb : Int, nb ≤ 0 → split_into_batches files nb = [files]) := by
  set n := min num_batches.toNat files.length with hn_def
  have hL : 0 < files.length := List.length_pos.mpr hf
  have hn : 0 < n := by
    have : (1 : Nat) ≤ num_batches.toNat := by omega
    omega
  refine ⟨length_split_into_batches files num_batches hf hN, ?_, ?_, ?_, ?_, ?_⟩
  · -- round-robin membership
    intro p hp
    obtain ⟨hlt, hget⟩ := mem_enum_fst_lt files p hp
    have hj : p.1 % n < n := Nat.mod_lt _ hn
    rw [List.getD_eq_getElem?_getD,
      getElem?_split_into_batches files num_batches hf hN _ hj]
    simp only [Option.getD_some]
    refine List.mem_map.mpr ⟨p, ?_, rfl⟩
    exact List.mem_filter.mpr ⟨hp, by simp⟩
  · -- flatten is a permutation of the input
    exact split_flatten_perm files num_batches hf
  · -- balance
    intro b1 hb1 b2 hb2
    obtain ⟨i, hi⟩ := List.mem_iff_getElem?.mp hb1
    obtain ⟨j, hj⟩ := List.mem_iff_getElem?.mp hb2
    have hlen := length_split_into_batches files num_batches hf hN
    have hi_lt : i < n := by
      by_contra hc
      rw [List.getElem?_eq_none (by omega)] at hi
      exact Option.noConfusion hi
    have hj_lt : j < n := by
      by_contra hc
      rw [List.getElem?_eq_none (by omega)] at hj
      exact Option.noConfusion hj
    have h1 := batch_length files num_batches hf hN i hi_lt
    have h2 := batch_length files num_batches hf hN j hj_lt
    rw [hi] at h1
    rw [hj] at h2
    simp only [Option.getD_some] at h1 h2
    rw [modCount_formula n hn files.length i hi_lt] at h1
    rw [modCount_formula n hn files.length j hj_lt] at h2
    split_ifs at h1 h2 <;> omega
  · simp [split_into_batches]
  · intro nb hnb
    rw [split_into_batches, if_neg (by simpa using hf), if_pos hnb]

/-- Witness for claim C2 at a concrete input: three files split into two
batches. -/
theorem claim_C2_witness :
    ([10, 20, 30] : List Nat) ≠ [] ∧ (1 : Int) ≤ 2 ∧
      (split_into_batches [10, 20, 30] (2 : Int)).flatten.Perm [10, 20, 30] :=
  ⟨by decide, by decide, (claim_C2 [10, 20, 30] 2 (by decide) (by decide)).2.2.1⟩

/-! ## Parallel REST uploader: `xnatio/uploaders/parallel_rest.py`

The pipeline `upload_dicom_parallel_rest` is embedded with its effects made
explicit:

* `scan` is the outcome of `collect_dicom_files(source_dir)` (`.error` when
  the call raises, `.ok files` otherwise);
* `archiveRes i` is the outcome of `create_archive` for batch index `i`
  (`.error msg` when the archiver raises, `.ok size` otherwise);
* `statOk i` tells whether `archive_path.stat()` at the top of
  `upload_batch` succeeds for batch index `i` (it sits outside the
  `try` block, so a failure propagates out of the worker);
* `uploadRes i` is the `(success, error)` pair produced by
  `XNATSession.upload_archive` for batch index `i` (`upload_batch` catches
  every exception from that part and folds it into this pair);
* `archOrd` / `upOrd` are the completion orders in which
  `concurrent.futures.as_completed` yields the archive and upload futures;
  both are permutations of the submitted indices `0..len(batches)-1`.
-/

/-- Mirror of the `UploadResult` dataclass (timing and size fields are
dropped: no claim mentions them). -/
structure UploadResult where
  batch_id : Nat
  success : Bool
  error : String
  deriving Repr, DecidableEq

/-- Mirror of the `UploadSummary` dataclass (timing and size fields are
dropped: no claim mentions them). -/
structure UploadSummary where
  success : Bool
  total_files : Nat
  batches_succeeded : Nat
  batches_failed : Nat
  errors : List String
  deriving Repr, DecidableEq

/-- Overall effect of one call to `upload_dicom_parallel_rest`: either a
returned `UploadSummary` or a propagated exception, plus whether the run
created its temporary directory and whether the terminal `finally` block
removed it. -/
structure RestRun where
  outcome : Except String UploadSummary
  tempCreated : Bool
  tempRemoved : Bool
  deriving Repr

/-- Worker `upload_batch(...)`: `archive_path.stat()` raising escapes the worker;
everything after it is wrapped in `try/except Exception` and always yields an
`UploadResult` (`batch_id` is `i + 1` at submission site `i`). -/
def upload_batch (batch_id : Nat) (statOk : Bool) (uploadRes : Bool × String) :
    Except String UploadResult :=
  if statOk then .ok ⟨batch_id, uploadRes.1, uploadRes.2⟩
  else .error "stat failed"

/-- First exception delivered by `future.result()` when iterating
`as_completed` in the given completion order. -/
def firstRaise (f : Nat → Except String β) : List Nat → Option String
  | [] => none
  | i :: rest =>
    match f i with
    | .error e => some e
    | .ok _ => firstRaise f rest

/-- The `UploadResult`s collected in completion order by the
`as_completed` loop of the upload stage (defined when no worker raises). -/
def uploadResults (statOk : Nat → Bool) (uploadRes : Nat → Bool × String)
    (upOrd : List Nat) : List UploadResult :=
  upOrd.filterMap (fun i => (upload_batch (i + 1) (statOk i) (uploadRes i)).toOption)

/-- The `errors` list accumulated by the upload loop: one
`Batch <id>: <error>` entry per failed result, in completion order. -/
def uploadErrors (results : List UploadResult) : List String :=
  results.filterMap (fun r =>
    if r.success then none
    else some ("Batch " ++ toString r.batch_id ++ ": " ++ r.error))

/-- Pipeline `upload_dicom_parallel_rest` from `xnatio/uploaders/parallel_rest.py`. -/
def upload_dicom_parallel_rest (scan : Except String (List α)) (num_batches : Int)
    (archiveRes : Nat → Except String Nat) (statOk : Nat → Bool)
    (uploadRes : Nat → Bool × String) (archOrd upOrd : List Nat) : RestRun :=
  match scan with
  | .error e =>
      ⟨.ok ⟨false, 0, 0, 0, ["Failed to scan directory: " ++ e]⟩, false, false⟩
  | .ok files =>
    if files.isEmpty then
      ⟨.ok ⟨false, 0, 0, 0, ["No DICOM files found"]⟩, false, false⟩
    else
      -- temp directory is created here; the whole rest of the function runs
      -- inside `try: ... finally: shutil.rmtree(temp_dir)`.
      match firstRaise archiveRes archOrd with
      | some e => ⟨.error e, true, true⟩
      | none =>
        match firstRaise (fun i => upload_batch (i + 1) (statOk i) (uploadRes i)) upOrd with
        | some e => ⟨.error e, true, true⟩
        | none =>
          ⟨.ok ⟨(uploadResults statOk uploadRes upOrd).length -
                (uploadResults statOk uploadRes upOrd).countP (fun r => r.success) = 0,
              files.length,
              (uploadResults statOk uploadRes upOrd).countP (fun r => r.success),
              (uploadResults statOk uploadRes upOrd).length -
                (uploadResults statOk uploadRes upOrd).countP (fun r => r.success),
              uploadErrors (uploadResults statOk uploadRes upOrd)⟩, true, true⟩

/-- Number of batches of a run: the length of the split when the scan
produced files, `0` on the early-return paths (where no batches exist). -/
def runBatchCount (scan : Except String (List α)) (num_batches : Int) : Nat :=
  match scan with
  | .error _ => 0
  | .ok files => (split_into_batches files num_batches).length

theorem firstRaise_none_ok (f : Nat → Except String β) (l : List Nat)
    (h : firstRaise f l = none) : ∀ i ∈ l, ∃ b, f i = .ok b := by
  induction l with
  | nil => intro i hi; cases hi
  | cons j rest ih =>
    intro i hi
    rw [firstRaise] at h
    cases hf : f j with
    | error e => rw [hf] at h; exact Option.noConfusion h
    | ok b =>
      rw [hf] at h
      rcases List.mem_cons.mp hi with rfl | hmem
      · exact ⟨b, hf⟩
      · exact ih h i hmem

theorem length_filterMap_toOption (f : Nat → Except String β) (l : List Nat)
    (h : ∀ i ∈ l, ∃ b, f i = .ok b) :
    (l.filterMap (fun i => (f i).toOption)).length = l.length := by
  induction l with
  | nil => rfl
  | cons j rest ih =>
    obtain ⟨b, hb⟩ := h j (List.mem_cons_self j rest)
    have hred : (Except.ok b : Except String β).toOption = some b := rfl
    rw [List.filterMap_cons, hb, hred, List.length_cons, List.length_cons,
      ih (fun i hi => h i (List.mem_cons_of_mem j hi))]

/-- Claim C1, amended.  Whenever `upload_dicom_parallel_rest` returns an
`UploadSummary`, `batches_succeeded + batches_failed` equals the number of
batches of the run; and on every run whose scan discovered at least one file,
`success` is true iff `batches_failed == 0`.  (On the two early-return paths
— scan failure and no files found — the summary carries `success = false`
with `batches_succeeded = batches_failed = 0`, so the equivalence does not
hold there; see `claim_C1_counterexample`.) -/
theorem claim_C1 (scan : Except String (List α)) (num_batches : Int)
    (archiveRes : Nat → Except String Nat) (statOk : Nat → Bool)
    (uploadRes : Nat → Bool × String) (archOrd upOrd : List Nat)
    (hperm : upOrd.Perm (List.range (runBatchCount scan num_batches)))
    (s : UploadSummary)
    (hs : (upload_dicom_parallel_rest scan num_batches archiveRes statOk
      uploadRes archOrd upOrd).outcome = Except.ok s) :
    s.batches_succeeded + s.batches_failed = runBatchCount scan num_batches
    ∧ (∀ files : List α, scan = Except.ok files → files ≠ [] →
        (s.success = true ↔ s.batches_failed = 0)) := by
  cases scan with
  | error e =>
    rw [upload_dicom_parallel_rest] at hs
    simp only [Except.ok.injEq] at hs
    subst hs
    exact ⟨rfl, fun files hf => Except.noConfusion hf⟩
  | ok files =>
    rw [upload_dicom_parallel_rest] at hs
    by_cases hfe : files.isEmpty
    · rw [if_pos hfe] at hs
      simp only [Except.ok.injEq] at hs
      subst hs
      have hnil : files = [] := List.isEmpty_iff.mp hfe
      refine ⟨?_, ?_⟩
      · rw [runBatchCount, hnil]
        simp [split_into_batches]
      · intro files2 hf2 hne
        rw [Except.ok.injEq] at hf2
        exact absurd (hf2 ▸ hnil) hne
    · rw [if_neg hfe] at hs
      cases ha : firstRaise archiveRes archOrd with
      | some e => rw [ha] at hs; exact Except.noConfusion hs
      | none =>
        rw [ha] at hs
        cases hu : firstRaise
            (fun i => upload_batch (i + 1) (statOk i) (uploadRes i)) upOrd with
        | some e => rw [hu] at hs; exact Except.noConfusion hs
        | none =>
          rw [hu] at hs
          simp only [Except.ok.injEq] at hs
          subst hs
          have hok := firstRaise_none_ok _ _ hu
          have hlen : (uploadResults statOk uploadRes upOrd).length = upOrd.length :=
            length_filterMap_toOption _ _ hok
          have hcount := hperm.length_eq
          rw [List.length_range] at hcount
          have hle : (uploadResults statOk uploadRes upOrd).countP (fun r => r.success) ≤
              (uploadResults statOk uploadRes upOrd).length := List.countP_le_length _
          constructor
          · simp only
            omega
          · intro files2 hf2 hne
            simp only [decide_eq_true_eq]

/-- Counterexample to claim C1 as stated: an invocation on an empty source
directory returns a summary with `success = false` and `batches_failed = 0`,
so `success ⇔ batches_failed == 0` fails for that invocation. -/
def emptyScanSummary : UploadSummary := ⟨false, 0, 0, 0, ["No DICOM files found"]⟩

theorem claim_C1_counterexample :
    (upload_dicom_parallel_rest (Except.ok ([] : List Nat)) 2 (fun _ => Except.ok 0)
        (fun _ => true) (fun _ => (true, "")) [] []).outcome = Except.ok emptyScanSummary
    ∧ ¬(emptyScanSummary.success = true ↔ emptyScanSummary.batches_failed = 0) :=
  ⟨rfl, by decide⟩

/-- Witness for claim C1: a concrete two-batch run with one failing upload. -/
theorem claim_C1_witness :
    ∃ s : UploadSummary,
      (upload_dicom_parallel_rest (Except.ok [10, 20, 30]) 2 (fun _ => Except.ok 100)
          (fun _ => true) (fun i => if i = 0 then (true, "") else (false, "Status 500: broken"))
          [0, 1] [1, 0]).outcome = Except.ok s
      ∧ s.batches_succeeded + s.batches_failed =
          runBatchCount (Except.ok [10, 20, 30]) 2
      ∧ (s.success = true ↔ s.batches_failed = 0) := by
  refine ⟨⟨false, 3, 1, 1, ["Batch 2: Status 500: broken"]⟩, by rfl, ?_⟩
  have h := claim_C1 (Except.ok [10, 20, 30]) 2 (fun _ => Except.ok 100)
    (fun _ => true) (fun i => if i = 0 then (true, "") else (false, "Status 500: broken"))
    [0, 1] [1, 0] (by decide) ⟨false, 3, 1, 1, ["Batch 2: Status 500: broken"]⟩ (by rfl)
  exact ⟨h.1, h.2 [10, 20, 30] rfl (by decide)⟩

/-- Claim C6, amended.  If creating any batch archive fails, the whole run
fails: the temporary directory is removed by the terminal `finally` block and
the archiver's exception propagates to the caller — no `UploadSummary` is
returned (the claimed failure summary is never constructed; see
`claim_C6_counterexample`). -/
theorem claim_C6 (scan : Except String (List α)) (num_batches : Int)
    (archiveRes : Nat → Except String Nat) (statOk : Nat → Bool)
    (uploadRes : Nat → Bool × String) (archOrd upOrd : List Nat)
    (files : List α) (hscan : scan = Except.ok files) (hne : ¬files.isEmpty)
    (e : String) (harch : firstRaise archiveRes archOrd = some e) :
    (upload_dicom_parallel_rest scan num_batches archiveRes statOk
        uploadRes archOrd upOrd).outcome = Except.error e
    ∧ (upload_dicom_parallel_rest scan num_batches archiveRes statOk
        uploadRes archOrd upOrd).tempCreated = true
    ∧ (upload_dicom_parallel_rest scan num_batches archiveRes statOk
        uploadRes archOrd upOrd).tempRemoved = true := by
  subst hscan
  rw [upload_dicom_parallel_rest]
  rw [if_neg hne, harch]
  exact ⟨rfl, rfl, rfl⟩

/-- Counterexample to claim C6 as stated: a run whose only archive job raises
propagates the exception (outcome is `.error`, not a returned failure
summary), although the temporary directory is indeed removed. -/
theorem claim_C6_counterexample :
    (upload_dicom_parallel_rest (Except.ok [7]) 1 (fun _ => Except.error "disk full")
        (fun _ => true) (fun _ => (true, "")) [0] [0]).outcome = Except.error "disk full"
    ∧ (upload_dicom_parallel_rest (Except.ok [7]) 1 (fun _ => Except.error "disk full")
        (fun _ => true) (fun _ => (true, "")) [0] [0]).tempRemoved = true :=
  ⟨rfl, rfl⟩

/-- Witness for claim C6 at a concrete input. -/
theorem claim_C6_witness :
    (upload_dicom_parallel_rest (Except.ok [7, 8]) 2 (fun i => if i = 0 then Except.ok 5 else Except.error "io error")
        (fun _ => true) (fun _ => (true, "")) [0, 1] [0, 1]).outcome = Except.error "io error"
    ∧ (upload_dicom_parallel_rest (Except.ok [7, 8]) 2 (fun i => if i = 0 then Except.ok 5 else Except.error "io error")
        (fun _ => true) (fun _ => (true, "")) [0, 1] [0, 1]).tempCreated = true
    ∧ (upload_dicom_parallel_rest (Except.ok [7, 8]) 2 (fun i => if i = 0 then Except.ok 5 else Except.error "io error")
        (fun _ => true) (fun _ => (true, "")) [0, 1] [0, 1]).tempRemoved = true :=
  claim_C6 (Except.ok [7, 8]) 2 (fun i => if i = 0 then Except.ok 5 else Except.error "io error")
    (fun _ => true) (fun _ => (true, "")) [0, 1] [0, 1] [7, 8] rfl (by decide) "io error" (by decide)

/-! ## Retry engine: `xnatio/services/base.py`, `XNATConnection.retry_on_network_error`

Each invocation of `fn()` is abstracted by its outcome: a returned value, an
exception of one of the six caught transient-network classes
(`requests.exceptions.ConnectionError`, `Timeout`, `ChunkedEncodingError`,
`ConnectionResetError`, `BrokenPipeError`, `OSError`), or any other
exception (which the `try/except` does not catch). -/

/-- Outcome of the `attempt`-th call of `fn()`. -/
inductive CallRes (α : Type) where
  | ok (v : α)
  | transient (e : String)
  | fatal (e : String)
  deriving Repr, DecidableEq

/-- Overall result of `retry_on_network_error`. -/
inductive RetryOut (α : Type) where
  /-- `return fn()` succeeded on some attempt. -/
  | ok (v : α)
  /-- a non-transient exception propagated out of the loop uncaught. -/
  | raised (e : String)
  /-- `raise RetryExhaustedError(operation, max_retries + 1, last_exc)`:
  carries `attempts` and the last transient exception (if any call ran). -/
  | exhausted (attempts : Nat) (last : Option String)
  deriving Repr, DecidableEq

/-- The `for attempt in range(max_retries + 1)` loop, together with the count
of calls to `fn` made.  `remaining` is the number of loop iterations left;
`attempt` is the index of the next one; `last` mirrors `last_exc`. -/
def retryLoop (fn : Nat → CallRes α) (max_retries : Nat) :
    Nat → Nat → Option String → RetryOut α × Nat
  | _, 0, last => (.exhausted (max_retries + 1) last, 0)
  | attempt, remaining + 1, last =>
    match fn attempt with
    | .ok v => (.ok v, 1)
    | .fatal e => (.raised e, 1)
    | .transient e =>
      let r := retryLoop fn max_retries (attempt + 1) remaining (some e)
      (r.1, r.2 + 1)

/-- Function `retry_on_network_error(fn, max_retries=..., backoff_base=...)`; the
second component counts how many times `fn()` was invoked.  (The backoff
sleeps `backoff_base ** (attempt + 1)` between transient failures; timing is
not modelled.) -/
def retry_on_network_error (fn : Nat → CallRes α) (max_retries : Nat) :
    RetryOut α × Nat :=
  retryLoop fn max_retries 0 (max_retries + 1) none

theorem retryLoop_calls_le (fn : Nat → CallRes α) (max_retries : Nat)
    (attempt remaining : Nat) (last : Option String) :
    (retryLoop fn max_retries attempt remaining last).2 ≤ remaining := by
  induction remaining generalizing attempt last with
  | zero => simp [retryLoop]
  | succ m ih =>
    rw [retryLoop]
    cases fn attempt with
    | ok v => simp
    | fatal e => simp
    | transient e =>
      simp only
      have := ih (attempt + 1) (some e)
      omega

theorem retryLoop_first_success (fn : Nat → CallRes α) (max_retries : Nat)
    (attempt remaining : Nat) (last : Option String) (k : Nat) (v : α)
    (hk : k < remaining)
    (htrans : ∀ j, j < k → ∃ e, fn (attempt + j) = CallRes.transient e)
    (hok : fn (attempt + k) = CallRes.ok v) :
    retryLoop fn max_retries attempt remaining last = (.ok v, k + 1) := by
  induction k generalizing attempt remaining last with
  | zero =>
    cases remaining with
    | zero => omega
    | succ m => rw [retryLoop]; rw [show attempt + 0 = attempt from rfl] at hok; rw [hok]
  | succ k ih =>
    cases remaining with
    | zero => omega
    | succ m =>
      obtain ⟨e, he⟩ := htrans 0 (Nat.succ_pos k)
      rw [retryLoop]
      rw [show attempt + 0 = attempt from rfl] at he
      rw [he]
      simp only
      have hrec := ih (attempt + 1) m (some e) (by omega)
        (fun j hj => by
          obtain ⟨e2, he2⟩ := htrans (j + 1) (by omega)
          exact ⟨e2, by rw [show attempt + 1 + j = attempt + (j + 1) from by omega]; exact he2⟩)
        (by rw [show attempt + 1 + k = attempt + (k + 1) from by omega]; exact hok)
      rw [hrec]

theorem retryLoop_first_fatal (fn : Nat → CallRes α) (max_retries : Nat)
    (attempt remaining : Nat) (last : Option String) (k : Nat) (e : String)
    (hk : k < remaining)
    (htrans : ∀ j, j < k → ∃ e2, fn (attempt + j) = CallRes.transient e2)
    (hfat : fn (attempt + k) = CallRes.fatal e) :
    retryLoop fn max_retries attempt remaining last = (.raised e, k + 1) := by
  induction k generalizing attempt remaining last with
  | zero =>
    cases remaining with
    | zero => omega
    | succ m => rw [retryLoop]; rw [show attempt + 0 = attempt from rfl] at hfat; rw [hfat]
  | succ k ih =>
    cases remaining with
    | zero => omega
    | succ m =>
      obtain ⟨e2, he2⟩ := htrans 0 (Nat.succ_pos k)
      rw [retryLoop]
      rw [show attempt + 0 = attempt from rfl] at he2
      rw [he2]
      simp only
      have hrec := ih (attempt + 1) m (some e2) (by omega)
        (fun j hj => by
          obtain ⟨e3, he3⟩ := htrans (j + 1) (by omega)
          exact ⟨e3, by rw [show attempt + 1 + j = attempt + (j + 1) from by omega]; exact he3⟩)
        (by rw [show attempt + 1 + k = attempt + (k + 1) from by omega]; exact hfat)
      rw [hrec]

theorem retryLoop_all_transient (fn : Nat → CallRes α) (max_retries : Nat)
    (attempt remaining : Nat) (last : Option String)
    (htrans : ∀ j, j < remaining → ∃ e, fn (attempt + j) = CallRes.transient e) :
    ∃ lastE,
      retryLoop fn max_retries attempt remaining last =
        (.exhausted (max_retries + 1) lastE, remaining)
      ∧ (0 < remaining → fn (attempt + (remaining - 1)) = CallRes.transient (lastE.getD "")
          ∧ lastE.isSome) := by
  induction remaining generalizing attempt last with
  | zero => exact ⟨last, rfl, by omega⟩
  | succ m ih =>
    obtain ⟨e, he⟩ := htrans 0 (Nat.succ_pos m)
    rw [show attempt + 0 = attempt from rfl] at he
    obtain ⟨lastE, hrec, hlast⟩ := ih (attempt + 1) (some e)
      (fun j hj => by
        obtain ⟨e2, he2⟩ := htrans (j + 1) (by omega)
        exact ⟨e2, by rw [show attempt + 1 + j = attempt + (j + 1) from by omega]; exact he2⟩)
    refine ⟨if m = 0 then some e else lastE, ?_, ?_⟩
    · rw [retryLoop, he]
      simp only [hrec]
      cases hm : m with
      | zero =>
        rw [hm] at hrec
        rw [retryLoop] at hrec
        have : lastE = some e := by
          have := congrArg Prod.fst hrec
          simp only at this
          cases this
          rfl
        rw [this]
        simp
      | succ m2 => simp [Nat.succ_ne_zero]
    · intro _
      cases hm : m with
      | zero =>
        subst hm
        simp only [if_pos rfl]
        constructor
        · rw [show attempt + (0 + 1 - 1) = attempt from rfl]
          exact he
        · rfl
      | succ m2 =>
        subst hm
        simp only [Nat.succ_ne_zero, if_neg]
        have := hlast (Nat.succ_pos m2)
        constructor
        · rw [show attempt + (m2 + 1 + 1 - 1) = attempt + 1 + (m2 + 1 - 1) from by omega]
          exact this.1
        · exact this.2

/-- Claim C3: `retry_on_network_error(fn, max_retries, backoff_base)` calls
`fn` at most `max_retries + 1` times; if the first non-transient event is a
returned value, that value is the overall result (in particular a transient
failure followed by a success returns successfully); a non-transient
exception propagates immediately with no further calls; if all
`max_retries + 1` calls raise transient exceptions, `RetryExhaustedError` is
raised carrying `attempts = max_retries + 1` and the last exception. -/
theorem claim_C3 (fn : Nat → CallRes α) (max_retries : Nat) :
    (retry_on_network_error fn max_retries).2 ≤ max_retries + 1
    ∧ (∀ k v, k ≤ max_retries →
        (∀ j, j < k → ∃ e, fn j = CallRes.transient e) → fn k = CallRes.ok v →
        retry_on_network_error fn max_retries = (.ok v, k + 1))
    ∧ (∀ k e, k ≤ max_retries →
        (∀ j, j < k → ∃ e2, fn j = CallRes.transient e2) → fn k = CallRes.fatal e →
        retry_on_network_error fn max_retries = (.raised e, k + 1))
    ∧ ((∀ j, j ≤ max_retries → ∃ e, fn j = CallRes.transient e) →
        ∃ lastE, retry_on_network_error fn max_retries =
            (.exhausted (max_retries + 1) (some lastE), max_retries + 1)
          ∧ fn max_retries = CallRes.transient lastE) := by
  refine ⟨retryLoop_calls_le fn max_retries 0 (max_retries + 1) none, ?_, ?_, ?_⟩
  · intro k v hk htrans hok
    exact retryLoop_first_success fn max_retries 0 (max_retries + 1) none k v (by omega)
      (fun j hj => by rw [Nat.zero_add]; exact htrans j hj)
      (by rw [Nat.zero_add]; exact hok)
  · intro k e hk htrans hfat
    exact retryLoop_first_fatal fn max_retries 0 (max_retries + 1) none k e (by omega)
      (fun j hj => by rw [Nat.zero_add]; exact htrans j hj)
      (by rw [Nat.zero_add]; exact hfat)
  · intro htrans
    obtain ⟨lastE, hrun, hlast⟩ := retryLoop_all_transient fn max_retries 0
      (max_retries + 1) none (fun j hj => by rw [Nat.zero_add]; exact htrans j (by omega))
    have h2 := hlast (Nat.succ_pos max_retries)
    obtain ⟨le2, hle2⟩ := Option.isSome_iff_exists.mp h2.2
    refine ⟨le2, ?_, ?_⟩
    · rw [retry_on_network_error, hrun, hle2]
    · have := h2.1
      rw [show 0 + (max_retries + 1 - 1) = max_retries from by omega, hle2] at this
      exact this

/-- Witness for claim C3: `max_retries = 4`, transient failure on the first
attempt, success on the second. -/
theorem claim_C3_witness :
    retry_on_network_error
      (fun j => if j = 0 then CallRes.transient "connection reset" else CallRes.ok 42) 4 =
      (RetryOut.ok 42, 2) :=
  (claim_C3 (fun j => if j = 0 then CallRes.transient "connection reset" else CallRes.ok 42)
    4).2.1 1 42 (by omega)
    (fun j hj => ⟨"connection reset", by interval_cases j <;> rfl⟩) rfl

/-! ## DICOM C-STORE sender: `xnatio/uploaders/dicom_store.py`

Per-file I/O is abstracted by a `FileOutcome`: what `pydicom.dcmread` and
`assoc.send_c_store` do for that file.  `send_batch` catches only
`InvalidDicomError` around the read and only `AttributeError`/`ValueError`
around the send; every other exception propagates out of the worker. -/

/-- Behaviour of one file inside the `for fp in files` loop of `send_batch`. -/
inductive FileOutcome where
  /-- `dcmread` raises `InvalidDicomError`: `failed += 1`, continue. -/
  | parseError
  /-- `dcmread` raises anything else (e.g. `OSError`): propagates uncaught. -/
  | parseRaise (e : String)
  /-- `send_c_store` returns; `none` models a falsy status object,
  `some st` a status with `Status = st`. -/
  | stored (status : Option Nat)
  /-- `send_c_store` raises `AttributeError` or `ValueError`: `failed += 1`,
  continue. -/
  | storeCaught (e : String)
  /-- `send_c_store` raises anything else: propagates uncaught. -/
  | storeRaise (e : String)
  deriving Repr, DecidableEq

/-- The per-file loop of `send_batch`, carrying the `sent`/`failed`
counters; an uncaught exception aborts the loop. -/
def storeLoop : List FileOutcome → Nat → Nat → Except String (Nat × Nat)
  | [], sent, failed => .ok (sent, failed)
  | o :: rest, sent, failed =>
    match o with
    | .parseError => storeLoop rest sent (failed + 1)
    | .parseRaise e => .error e
    | .stored none => storeLoop rest sent (failed + 1)
    | .stored (some st) =>
      if st = 0 then storeLoop rest (sent + 1) failed
      else storeLoop rest sent (failed + 1)
    | .storeCaught _ => storeLoop rest sent (failed + 1)
    | .storeRaise e => .error e

/-- Result of one `send_batch` worker: the `(sent, failed)` pair it returns
(or the exception it propagates), and whether `assoc.release()` ran.
`established` is `assoc.is_established` after `ae.associate(...)`. -/
structure BatchExec where
  result : Except String (Nat × Nat)
  released : Bool
  deriving Repr

/-- Function `send_batch` from `xnatio/uploaders/dicom_store.py`.  When the
association is not established the batch returns `(0, len(files))` at once;
otherwise the file loop runs and `assoc.release()` executes only if the loop
finishes without an uncaught exception (there is no `try/finally` around
it). -/
def send_batch (established : Bool) (fs : List FileOutcome) : BatchExec :=
  if established then
    match storeLoop fs 0 0 with
    | .ok p => ⟨.ok p, true⟩
    | .error e => ⟨.error e, false⟩
  else ⟨.ok (0, fs.length), false⟩

/-- Mirror of the `DICOMStoreSummary` dataclass (the two path fields are
dropped: no claim mentions them). -/
structure DICOMStoreSummary where
  total_files : Nat
  sent : Nat
  failed : Nat
  success : Bool
  deriving Repr, DecidableEq

/-- The `sent` component delivered by a completed batch future. -/
def batchSent (r : Except String (Nat × Nat)) : Nat := (r.toOption.getD (0, 0)).1

/-- The `failed` component delivered by a completed batch future. -/
def batchFailed (r : Except String (Nat × Nat)) : Nat := (r.toOption.getD (0, 0)).2

/-- Function `send_dicom_store` from `xnatio/uploaders/dicom_store.py`.  `dirOk` is
the `dicom_root.exists() and dicom_root.is_dir()` check, `echoOk` the
pre-flight `c_echo` result, `files` the outcome of `collect_dicom_files`,
`est i` whether batch `i`'s association is established, `outc i x` the
`FileOutcome` of file `x` in batch `i`, and `ord` the completion order of
the batch futures. -/
def send_dicom_store (dirOk echoOk : Bool) (files : List α) (batches : Int)
    (est : Nat → Bool) (outc : Nat → α → FileOutcome) (ord : List Nat) :
    Except String DICOMStoreSummary :=
  if dirOk then
    if echoOk then
      if files.isEmpty then .error "No DICOM files found"
      else
        match firstRaise (fun i => (send_batch (est i)
            (((split_into_batches files batches).getD i []).map (outc i))).result) ord with
        | some e => .error e
        | none =>
          .ok ⟨files.length,
            (ord.map (fun i => batchSent (send_batch (est i)
              (((split_into_batches files batches).getD i []).map (outc i))).result)).sum,
            (ord.map (fun i => batchFailed (send_batch (est i)
              (((split_into_batches files batches).getD i []).map (outc i))).result)).sum,
            (ord.map (fun i => batchFailed (send_batch (est i)
              (((split_into_batches files batches).getD i []).map (outc i))).result)).sum = 0⟩
    else .error "C-ECHO failed - check host/port/AET settings"
  else .error "dicom_root is not a directory"

theorem storeLoop_ok_sum (fs : List FileOutcome) (sent failed s2 f2 : Nat)
    (h : storeLoop fs sent failed = .ok (s2, f2)) :
    s2 + f2 = sent + failed + fs.length := by
  induction fs generalizing sent failed with
  | nil =>
    simp only [storeLoop, Except.ok.injEq, Prod.mk.injEq] at h
    simp only [List.length_nil]
    omega
  | cons o rest ih =>
    cases o with
    | parseError =>
      simp only [storeLoop] at h
      have := ih _ _ h
      simp only [List.length_cons]
      omega
    | parseRaise e =>
      simp only [storeLoop] at h
      exact Except.noConfusion h
    | stored st =>
      cases st with
      | none =>
        simp only [storeLoop] at h
        have := ih _ _ h
        simp only [List.length_cons]
        omega
      | some v =>
        simp only [storeLoop] at h
        by_cases hv : v = 0
        · rw [if_pos hv] at h
          have := ih _ _ h
          simp only [List.length_cons]
          omega
        · rw [if_neg hv] at h
          have := ih _ _ h
          simp only [List.length_cons]
          omega
    | storeCaught e =>
      simp only [storeLoop] at h
      have := ih _ _ h
      simp only [List.length_cons]
      omega
    | storeRaise e =>
      simp only [storeLoop] at h
      exact Except.noConfusion h

theorem send_batch_ok_sum (established : Bool) (fs : List FileOutcome)
    (p : Nat × Nat) (h : (send_batch established fs).result = .ok p) :
    p.1 + p.2 = fs.length := by
  rw [send_batch] at h
  cases established with
  | false =>
    simp only [Bool.false_eq_true, if_false, Except.ok.injEq] at h
    rw [← h]
    simp
  | true =>
    simp only [if_true] at h
    cases hl : storeLoop fs 0 0 with
    | error e =>
      rw [hl] at h
      exact Except.noConfusion h
    | ok q =>
      rw [hl] at h
      simp only [Except.ok.injEq] at h
      subst h
      have := storeLoop_ok_sum fs 0 0 q.1 q.2 (by rw [hl])
      omega

theorem sum_map_add_split (l : List Nat) (f g : Nat → Nat) :
    (l.map f).sum + (l.map g).sum = (l.map (fun i => f i + g i)).sum := by
  induction l with
  | nil => rfl
  | cons a rest ih => simp only [List.map_cons, List.sum_cons]; omega

theorem sum_getD_lengths (L : List (List α)) :
    ((List.range L.length).map (fun i => (L.getD i []).length)).sum =
      (L.map List.length).sum := by
  induction L with
  | nil => rfl
  | cons c t ih =>
    rw [List.length_cons, List.range_succ_eq_map, List.map_cons, List.map_map]
    simp only [List.getD_cons_zero, Function.comp_def, List.getD_cons_succ]
    rw [List.sum_cons, List.map_cons, List.sum_cons, ih]

/-- Claim C4: every `DICOMStoreSummary` returned by `send_dicom_store`
satisfies `sent + failed == total_files` (the number of discovered files)
and `success ⇔ failed == 0`, on every run that returns a summary — including
runs with rejected associations (whole batch counted failed), parse
failures, and non-zero C-STORE statuses.  (Runs on which a batch worker
raises an uncaught exception propagate it and return no summary, so they are
outside the claim.) -/
theorem claim_C4 [DecidableEq α] (dirOk echoOk : Bool) (files : List α) (batches : Int)
    (est : Nat → Bool) (outc : Nat → α → FileOutcome) (ord : List Nat)
    (hperm : ord.Perm (List.range (split_into_batches files batches).length))
    (s : DICOMStoreSummary)
    (hs : send_dicom_store dirOk echoOk files batches est outc ord = Except.ok s) :
    s.sent + s.failed = s.total_files
    ∧ (s.success = true ↔ s.failed = 0)
    ∧ s.total_files = files.length := by
  rw [send_dicom_store] at hs
  cases dirOk with
  | false => exact Except.noConfusion hs
  | true =>
    cases echoOk with
    | false => exact Except.noConfusion hs
    | true =>
      simp only [if_true] at hs
      by_cases hfe : files.isEmpty
      · rw [if_pos hfe] at hs
        exact Except.noConfusion hs
      · rw [if_neg hfe] at hs
        have hfne : files ≠ [] := by simpa using hfe
        cases hfr : firstRaise (fun i => (send_batch (est i)
            (((split_into_batches files batches).getD i []).map (outc i))).result) ord with
        | some e => rw [hfr] at hs; exact Except.noConfusion hs
        | none =>
          rw [hfr] at hs
          simp only [Except.ok.injEq] at hs
          subst hs
          have hok := firstRaise_none_ok _ _ hfr
          have hpt : ∀ i ∈ ord,
              batchSent (send_batch (est i)
                  (((split_into_batches files batches).getD i []).map (outc i))).result +
                batchFailed (send_batch (est i)
                  (((split_into_batches files batches).getD i []).map (outc i))).result =
              ((split_into_batches files batches).getD i []).length := by
            intro i hi
            obtain ⟨p, hp⟩ := hok i hi
            rw [hp]
            have := send_batch_ok_sum (est i) _ p hp
            simp only [batchSent, batchFailed, Except.toOption, Option.getD_some]
            rw [List.length_map] at this
            exact this
          refine ⟨?_, by simp only [decide_eq_true_eq], rfl⟩
          simp only
          rw [sum_map_add_split]
          have hcongr : ord.map (fun i =>
              batchSent (send_batch (est i)
                  (((split_into_batches files batches).getD i []).map (outc i))).result +
                batchFailed (send_batch (est i)
                  (((split_into_batches files batches).getD i []).map (outc i))).result) =
              ord.map (fun i => ((split_into_batches files batches).getD i []).length) :=
            List.map_congr_left hpt
          rw [hcongr]
          have hsum := (hperm.map
            (fun i => ((split_into_batches files batches).getD i []).length)).sum_eq
          rw [hsum, sum_getD_lengths]
          rw [← List.length_flatten]
          exact (split_flatten_perm files batches hfne).length_eq

/-- Witness for claim C4: five files in three batches, all stored with
status `0x0000`. -/
theorem claim_C4_witness :
    ∃ s : DICOMStoreSummary,
      send_dicom_store true true [1, 2, 3, 4, 5] 3 (fun _ => true)
          (fun _ _ => FileOutcome.stored (some 0)) [2, 0, 1] = Except.ok s
      ∧ s.sent + s.failed = s.total_files ∧ (s.success = true ↔ s.failed = 0)
      ∧ s.total_files = 5 := by
  refine ⟨⟨5, 5, 0, true⟩, by rfl, ?_⟩
  have h := claim_C4 true true [1, 2, 3, 4, 5] 3 (fun _ => true)
    (fun _ _ => FileOutcome.stored (some 0)) [2, 0, 1] (by decide) ⟨5, 5, 0, true⟩ (by rfl)
  exact ⟨h.1, h.2.1, h.2.2⟩

/-- Claim C8 is violated by the code: `send_batch` has no `try/finally`
around its file loop, so once the association is established, a file whose
read raises an exception other than `InvalidDicomError` (for example an
`OSError` for a file removed between discovery and read) propagates out of
the batch without `assoc.release()` ever running.  This theorem evaluates
the embedded `send_batch` at that failing input: the association was
established, the exception propagates, and the association is not
released. -/
theorem claim_C8 :
    (send_batch true [FileOutcome.parseRaise "OSError: file vanished"]).released = false
    ∧ (send_batch true [FileOutcome.parseRaise "OSError: file vanished"]).result =
        Except.error "OSError: file vanished"
    ∧ (send_batch true [FileOutcome.stored (some 0), FileOutcome.parseError,
        FileOutcome.stored (some 49152), FileOutcome.storeCaught "ValueError"]).released = true :=
  ⟨rfl, rfl, rfl⟩

/-! ## ZIP extraction: `xnatio/services/downloads.py`, `extract_session_downloads`

`extract_session_downloads` maps each ZIP name to a target directory and then
calls `zipfile.ZipFile.extractall(target_dir)` with no guard of its own.
`extractall` delegates to CPython `zipfile.ZipFile._extract_member`, which
never rejects a member: it sanitizes the member name — on POSIX it splits on
the path separator and drops every component equal to the empty string, `.`
(`os.path.curdir`) or `..` (`os.path.pardir`); `os.path.splitdrive` is a
no-op — and joins the surviving components under the target directory.
Paths are modelled as component lists. -/

/-- Python `str.split(sep)` for a one-character separator (always returns at
least one chunk; adjacent separators yield empty chunks). -/
def splitChars (sep : Char) : List Char → List (List Char)
  | [] => [[]]
  | c :: rest =>
    match splitChars sep rest with
    | [] => [[c]]
    | h :: t => if c = sep then [] :: h :: t else (c :: h) :: t

/-- Modelled from CPython `zipfile.ZipFile._extract_member` (POSIX): the path
components of a member name that survive sanitization. -/
def sanitizeMemberParts (filename : String) : List String :=
  ((splitChars '/' filename.data).map (fun cs => String.mk cs)).filter
    (fun c => !(c == "" || c == "." || c == ".."))

/-- Destination path at which `extractall(target_dir)` writes ZIP member
`filename`.  A `none` result would mean the member was rejected; CPython
never rejects, so this is always `some`. -/
def extract_entry (target : List String) (filename : String) : Option (List String) :=
  some (target ++ sanitizeMemberParts filename)

/-- Target directory chosen by `extract_session_downloads` for one ZIP name
(relative to the session directory). -/
def zipTargetDir (sessionDir : List String) (zipName : String) : List String :=
  if zipName = "scans.zip" then sessionDir ++ ["scans"]
  else if zipName.startsWith "resources_" && zipName.endsWith ".zip" then
    sessionDir ++ ["resources", (zipName.drop 10).dropRight 4]
  else if zipName = "assessor_resources.zip" then sessionDir ++ ["assessors"]
  else if zipName = "recon_resources.zip" then sessionDir ++ ["reconstructions"]
  else sessionDir ++ [zipName.dropRight 4]

/-- Claim C5, amended.  `extract_session_downloads` never rejects a ZIP
entry: an entry whose path contains a `..` component or is absolute is
extracted after sanitization (the offending components are dropped by
CPython `zipfile`), and — the half of the claim that does hold — no file is
ever written outside the archive's target directory: every destination
extends the target directory and the remaining components contain no `..`,
`.` or empty component, so the destination cannot escape it. -/
theorem claim_C5 (target : List String) (filename : String) :
    extract_entry target filename = some (target ++ sanitizeMemberParts filename)
    ∧ target <+: (target ++ sanitizeMemberParts filename)
    ∧ ∀ c ∈ sanitizeMemberParts filename, c ≠ "" ∧ c ≠ "." ∧ c ≠ ".." := by
  refine ⟨rfl, List.prefix_append target _, ?_⟩
  intro c hc
  have hp := (List.mem_filter.mp hc).2
  simp only [Bool.not_eq_true] at hp
  refine ⟨?_, ?_, ?_⟩ <;> intro he <;> subst he <;> simp at hp

/-- Counterexample to claim C5 as stated: a traversal entry `../evil.txt`
and an absolute entry `/abs/evil.txt` inside `scans.zip` are not rejected —
both are extracted (inside the target directory, at their sanitized
paths). -/
theorem claim_C5_counterexample :
    extract_entry (zipTargetDir ["out", "SESS01"] "scans.zip") "../evil.txt" =
      some ["out", "SESS01", "scans", "evil.txt"]
    ∧ extract_entry (zipTargetDir ["out", "SESS01"] "scans.zip") "/abs/evil.txt" =
      some ["out", "SESS01", "scans", "abs", "evil.txt"] := by
  constructor <;> rfl

/-- Witness for claim C5 at a concrete entry containing a `..` component. -/
theorem claim_C5_witness :
    extract_entry ["out"] "a/../b.txt" = some (["out"] ++ sanitizeMemberParts "a/../b.txt")
    ∧ ["out"] <+: (["out"] ++ sanitizeMemberParts "a/../b.txt")
    ∧ ("a" ≠ "" ∧ "a" ≠ "." ∧ "a" ≠ "..") := by
  have h := claim_C5 ["out"] "a/../b.txt"
  exact ⟨h.1, h.2.1, h.2.2 "a" (by decide)⟩

/-! ## Python string helpers shared by the validators and services

`str.strip()` and the character classes are modelled over the ASCII range
(the Python originals also treat some non-ASCII Unicode characters as
whitespace/digits; no identifier or URL handled by this code base uses
them). -/

/-- Characters removed by Python `str.strip()`, complete over the ASCII
range: `\t`, `\n`, `\v`, `\f`, `\r` (0x09-0x0D), the C0 separators
0x1C-0x1F, and the space.  (Python additionally strips the non-ASCII
`\x85`, `\xa0` and the Unicode space-category characters, which are outside
the ASCII scope modelled here.) -/
def pyIsSpace (c : Char) : Bool :=
  (9 ≤ c.toNat && c.toNat ≤ 13) || (28 ≤ c.toNat && c.toNat ≤ 31) || c == ' '

/-- Drop the longest suffix whose characters satisfy `p`. -/
def dropTrailing (p : Char → Bool) (l : List Char) : List Char :=
  (l.reverse.dropWhile p).reverse

/-- Python `str.strip()` with an explicit character class. -/
def pyStripChars (p : Char → Bool) (l : List Char) : List Char :=
  dropTrailing p (l.dropWhile p)

/-- Python `str.isdigit()` restricted to ASCII: non-empty and all decimal
digits. -/
def pyIsdigitStr (s : String) : Bool :=
  !s.data.isEmpty && s.data.all Char.isDigit

/-! ## Identifier validation: `xnatio/core/validation.py`,
`validate_xnat_identifier` / `validate_scan_id` -/

/-- One character of `XNAT_ID_PATTERN = ^[a-zA-Z0-9_-]+$`. -/
def xnatIdChar (c : Char) : Bool :=
  c.isAlpha || c.isDigit || c == '_' || c == '-'

/-- Function `validate_xnat_identifier(value, ..., max_length)` with
`allow_empty=False` (the only form the scan service uses): strip, reject
empty, reject over-long, reject characters outside the pattern; return the
stripped identifier.  `none` models a raised `InvalidIdentifierError`. -/
def validate_xnat_identifier (value : String) (maxLength : Nat) : Option String :=
  let s := pyStripChars pyIsSpace value.data
  if s.isEmpty then none
  else if maxLength < s.length then none
  else if s.all xnatIdChar then some (String.mk s)
  else none

/-- Function `validate_scan_id(scan_id)`: identifier of at most 32 characters. -/
def validate_scan_id (value : String) : Option String :=
  validate_xnat_identifier value 32

/-! ## Scan deletion: `xnatio/services/scans.py`, `ScanService.delete_scans`

`available` is the result of `list_scans`; `deleteErr sid` is the outcome of
the DELETE for scan `sid` (`none` = success, `some e` = the stringified
exception).  The model returns the result dictionary together with the list
of scan IDs for which a DELETE request was issued; `.error` models a raised
`InvalidIdentifierError` from scan-ID validation.  The parallel branch uses
`ThreadPoolExecutor.map`, which yields results in submission order, so it is
observationally identical to the serial loop and a single tail models both.
The Python `failed` dict is modelled as an association list in insertion
order. -/

/-- Result dictionary of `delete_scans`. -/
structure DeleteResult where
  deleted : List String
  failed : List (String × String)
  skipped : List String
  dry_run : Bool
  deriving Repr, DecidableEq

/-- The `for sid in scan_ids` validation loop: first invalid ID raises. -/
def validateScanIds : List String → Except String (List String)
  | [] => .ok []
  | s :: rest =>
    match validate_scan_id s with
    | none => .error ("invalid scan id: " ++ s)
    | some v => (validateScanIds rest).map (fun t => v :: t)

/-- Common tail of `delete_scans`: early return on an empty delete set,
dry-run return, or execution of the per-scan deletes. -/
def deleteScansTail (toDelete skippedOut : List String) (dry_run : Bool)
    (deleteErr : String → Option String) : Except String (DeleteResult × List String) :=
  if toDelete.isEmpty then .ok (⟨[], [], skippedOut, dry_run⟩, [])
  else if dry_run then .ok (⟨toDelete, [], skippedOut, true⟩, [])
  else
    .ok (⟨toDelete.filter (fun sid => (deleteErr sid).isNone),
      toDelete.filterMap (fun sid => (deleteErr sid).map (fun e => (sid, e))),
      skippedOut, false⟩, toDelete)

/-- Function `delete_scans` from `xnatio/services/scans.py` (after the identifier
validation of project/subject/session and worker count, which are
independent of this claim). -/
def delete_scans (available : List String) (scanIds : Option (List String))
    (dry_run : Bool) (deleteErr : String → Option String) :
    Except String (DeleteResult × List String) :=
  if available.isEmpty then .ok (⟨[], [], [], dry_run⟩, [])
  else
    match scanIds with
    | none => deleteScansTail available [] dry_run deleteErr
    | some ids =>
      match validateScanIds ids with
      | .error e => .error e
      | .ok vids =>
        deleteScansTail (vids.filter (fun v => available.contains v))
          (if ids.isEmpty then [] else vids.filter (fun v => !available.contains v))
          dry_run deleteErr

theorem validateScanIds_mem (ids : List String) (vids : List String)
    (h : validateScanIds ids = .ok vids) (sid : String) (hs : sid ∈ ids)
    (v : String) (hval : validate_scan_id sid = some v) : v ∈ vids := by
  induction ids generalizing vids with
  | nil => cases hs
  | cons a rest ih =>
    rw [validateScanIds] at h
    cases ha : validate_scan_id a with
    | none => rw [ha] at h; exact Except.noConfusion h
    | some w =>
      rw [ha] at h
      cases hr : validateScanIds rest with
      | error e => rw [hr] at h; exact Except.noConfusion h
      | ok t =>
        rw [hr] at h
        simp only [Except.map, Except.ok.injEq] at h
        subst h
        rcases List.mem_cons.mp hs with rfl | hmem
        · rw [ha] at hval
          simp only [Option.some.injEq] at hval
          subst hval
          exact List.mem_cons_self _ _
        · exact List.mem_cons_of_mem _ (ih t hr hmem)

/-- Claim C7, amended.  With an explicit scan-ID list and a NON-EMPTY live
scan listing, every requested ID absent from the listing appears (in
validated, stripped form) in `skipped` and is never deleted nor sent a
DELETE request; and with `dry_run=true` the returned plan carries the
would-be deletions in `deleted`, an empty `failed`, `dry_run=true`, and no
DELETE request is issued.  (When the live listing is empty the function
returns early with all-empty lists, so absent requested IDs do not reach
`skipped`; see `claim_C7_counterexample`.) -/
theorem claim_C7 (available : List String) (ids : List String) (dry_run : Bool)
    (deleteErr : String → Option String) (res : DeleteResult) (issued : List String)
    (hav : available ≠ [])
    (hrun : delete_scans available (some ids) dry_run deleteErr =
      Except.ok (res, issued)) :
    (∀ sid ∈ ids, ∀ v, validate_scan_id sid = some v →
      available.contains v = false →
      v ∈ res.skipped ∧ v ∉ res.deleted ∧ v ∉ issued)
    ∧ (dry_run = true → res.dry_run = true ∧ res.failed = [] ∧ issued = []
        ∧ ∀ vids, validateScanIds ids = Except.ok vids →
            res.deleted = vids.filter (fun v => available.contains v)) := by
  rw [delete_scans, if_neg (by simpa using hav)] at hrun
  cases hval : validateScanIds ids with
  | error e =>
    rw [hval] at hrun
    exact Except.noConfusion hrun
  | ok vids =>
    rw [hval] at hrun
    have hmemskip : ∀ sid ∈ ids, ∀ v, validate_scan_id sid = some v →
        available.contains v = false →
        v ∈ (if ids.isEmpty then [] else vids.filter (fun v => !available.contains v)) := by
      intro sid hs v hv hc
      have hne : ¬ids.isEmpty := by
        cases ids with
        | nil => cases hs
        | cons a t => simp
      rw [if_neg hne]
      exact List.mem_filter.mpr ⟨validateScanIds_mem ids vids hval sid hs v hv,
        by simp only [hc, Bool.not_false]⟩
    have hnotdel : ∀ v, available.contains v = false →
        v ∉ vids.filter (fun v => available.contains v) := by
      intro v hc hmem
      have := (List.mem_filter.mp hmem).2
      rw [hc] at this
      exact Bool.noConfusion this
    dsimp only at hrun
    rw [deleteScansTail] at hrun
    by_cases hempty : (vids.filter (fun v => available.contains v)).isEmpty
    · rw [if_pos hempty] at hrun
      simp only [Except.ok.injEq, Prod.mk.injEq] at hrun
      obtain ⟨hres, hiss⟩ := hrun
      subst hres
      subst hiss
      refine ⟨?_, ?_⟩
      · intro sid hs v hv hc
        exact ⟨hmemskip sid hs v hv hc, by simp, by simp⟩
      · intro hdry
        refine ⟨hdry, rfl, rfl, ?_⟩
        intro vids2 hv2
        simp only [Except.ok.injEq] at hv2
        subst hv2
        simp only
        exact (List.isEmpty_iff.mp hempty).symm
    · rw [if_neg hempty] at hrun
      cases hdry : dry_run with
      | true =>
        rw [hdry] at hrun
        simp only [if_true, Except.ok.injEq, Prod.mk.injEq] at hrun
        obtain ⟨hres, hiss⟩ := hrun
        subst hres
        subst hiss
        refine ⟨?_, ?_⟩
        · intro sid hs v hv hc
          exact ⟨hmemskip sid hs v hv hc, hnotdel v hc, by simp⟩
        · intro _
          refine ⟨rfl, rfl, rfl, ?_⟩
          intro vids2 hv2
          simp only [Except.ok.injEq] at hv2
          subst hv2
          rfl
      | false =>
        rw [hdry] at hrun
        simp only [Bool.false_eq_true, if_false, Except.ok.injEq, Prod.mk.injEq] at hrun
        obtain ⟨hres, hiss⟩ := hrun
        subst hres
        subst hiss
        refine ⟨?_, ?_⟩
        · intro sid hs v hv hc
          refine ⟨hmemskip sid hs v hv hc, ?_, hnotdel v hc⟩
          intro hmem
          exact hnotdel v hc (List.mem_of_mem_filter hmem)
        · intro hdry2
          exact Bool.noConfusion hdry2

/-- Counterexample to claim C7 as stated: the session has no scans, the
caller asks to delete the (valid, absent) scan ID `"5"` — the early return
for an empty listing produces an empty `skipped`, so the absent requested ID
never appears in it. -/
theorem claim_C7_counterexample :
    delete_scans [] (some ["5"]) true (fun _ => none) =
      Except.ok (⟨[], [], [], true⟩, [])
    ∧ validate_scan_id "5" = some "5"
    ∧ ¬("5" ∈ ([] : List String)) :=
  ⟨rfl, rfl, by simp⟩

/-- Witness for claim C7: live scans "1","2","3", request `["1","5"]`,
dry run — the plan deletes `"1"`, skips `"5"`, issues nothing. -/
theorem claim_C7_witness :
    delete_scans ["1", "2", "3"] (some ["1", "5"]) true (fun _ => none) =
      Except.ok (⟨["1"], [], ["5"], true⟩, [])
    ∧ ("5" ∈ (["5"] : List String) ∧ "5" ∉ (["1"] : List String)
        ∧ "5" ∉ ([] : List String)) := by
  constructor
  · rfl
  · have h := claim_C7 ["1", "2", "3"] ["1", "5"] true (fun _ => none)
      ⟨["1"], [], ["5"], true⟩ [] (by simp) (by rfl)
    have h5 := h.1 "5" (by simp) "5" (by rfl) (by rfl)
    exact h5

/-! ## Scan listing: `xnatio/services/scans.py`, `ScanService.list_scans`

`idColumn` is the outcome of `scans_coll.get("ID")` (`none` when the call
raises, otherwise the stringified entries); `rawList` is the outcome of
`scans_coll.get()` (`[]` when that call raises or returns nothing, matching
`raw_list = scans_coll.get() or []`).  The regular expression
`/scans/(\d+)` is embedded directly: `re.search` finds the leftmost match;
the group is the maximal digit run after the literal `/scans/`. -/

/-- Try to match `/scans/(\d+)` at the head of the list: the literal prefix
`/scans/` followed by at least one digit; returns the digit run. -/
def matchScansAt (l : List Char) : Option (List Char) :=
  if l.take 7 = "/scans/".data then
    let ds := (l.drop 7).takeWhile Char.isDigit
    if ds.isEmpty then none else some ds
  else none

/-- Python `re.search` of `/scans/(\d+)` in `s`: leftmost match. -/
def scansUriSearch : List Char → Option (List Char)
  | [] => none
  | c :: rest =>
    match matchScansAt (c :: rest) with
    | some ds => some ds
    | none => scansUriSearch rest

/-- The fallback extraction loop of `list_scans`: regex hit, else an
all-digit entry, else skip. -/
def extractScanIds : List String → List String
  | [] => []
  | s :: rest =>
    match scansUriSearch s.data with
    | some ds => String.mk ds :: extractScanIds rest
    | none =>
      if pyIsdigitStr s then s :: extractScanIds rest
      else extractScanIds rest

/-- Python `list(dict.fromkeys(extracted))`: deduplicate preserving first-seen
order. -/
def dedupKeepFirstGo (seen : List String) : List String → List String
  | [] => []
  | x :: rest =>
    if seen.contains x then dedupKeepFirstGo seen rest
    else x :: dedupKeepFirstGo (x :: seen) rest

/-- Deduplication entry point. -/
def dedupKeepFirst (l : List String) : List String := dedupKeepFirstGo [] l

/-- The `ids` list after the explicit-ID-column attempt: the stringified
column entries if they are non-empty and all pass `isdigit`, else `[]`. -/
def idColumnIds (idColumn : Option (List String)) : List String :=
  match idColumn with
  | some raw => if !raw.isEmpty && raw.all pyIsdigitStr then raw else []
  | none => []

/-- Function `list_scans` from `xnatio/services/scans.py` (after identifier
validation of project/subject/session). -/
def list_scans (idColumn : Option (List String)) (rawList : List String) :
    List String :=
  if !(idColumnIds idColumn).isEmpty then idColumnIds idColumn
  else dedupKeepFirst (extractScanIds rawList)

theorem mem_dedupKeepFirstGo (seen l : List String) (x : String)
    (h : x ∈ dedupKeepFirstGo seen l) : x ∈ l := by
  induction l generalizing seen with
  | nil => cases h
  | cons a rest ih =>
    rw [dedupKeepFirstGo] at h
    by_cases hc : seen.contains a
    · rw [if_pos hc] at h
      exact List.mem_cons_of_mem _ (ih seen h)
    · rw [if_neg hc] at h
      rcases List.mem_cons.mp h with rfl | hmem
      · exact List.mem_cons_self _ _
      · exact List.mem_cons_of_mem _ (ih (a :: seen) hmem)

theorem scansUriSearch_digits (l : List Char) (ds : List Char)
    (h : scansUriSearch l = some ds) :
    ds ≠ [] ∧ ∀ c ∈ ds, c.isDigit = true := by
  induction l with
  | nil =>
    rw [scansUriSearch] at h
    exact Option.noConfusion h
  | cons c rest ih =>
    rw [scansUriSearch] at h
    cases hat : matchScansAt (c :: rest) with
    | some ds2 =>
      rw [hat] at h
      simp only [Option.some.injEq] at h
      subst h
      rw [matchScansAt] at hat
      by_cases h7 : (c :: rest).take 7 = "/scans/".data
      · rw [if_pos h7] at hat
        by_cases hemp : (((c :: rest).drop 7).takeWhile Char.isDigit).isEmpty
        · rw [if_pos hemp] at hat
          exact Option.noConfusion hat
        · rw [if_neg hemp] at hat
          simp only [Option.some.injEq] at hat
          subst hat
          refine ⟨by simpa using hemp, fun ch hch => List.mem_takeWhile_imp hch⟩
      · rw [if_neg h7] at hat
        exact Option.noConfusion hat
    | none =>
      rw [hat] at h
      exact ih h

theorem mem_extractScanIds_digits (l : List String) (x : String)
    (h : x ∈ extractScanIds l) : pyIsdigitStr x = true := by
  induction l with
  | nil => cases h
  | cons s rest ih =>
    rw [extractScanIds] at h
    cases hm : scansUriSearch s.data with
    | some ds =>
      rw [hm] at h
      rcases List.mem_cons.mp h with rfl | hmem
      · obtain ⟨hne, hdig⟩ := scansUriSearch_digits s.data ds hm
        rw [pyIsdigitStr]
        simp only [Bool.and_eq_true]
        constructor
        · cases hd2 : ds with
          | nil => exact absurd hd2 hne
          | cons a t => rfl
        · exact List.all_eq_true.mpr hdig
      · exact ih hmem
    | none =>
      rw [hm] at h
      by_cases hd : pyIsdigitStr s
      · rw [if_pos hd] at h
        rcases List.mem_cons.mp h with rfl | hmem
        · exact hd
        · exact ih hmem
      · rw [if_neg hd] at h
        exact ih h

theorem mem_idColumnIds (idColumn : Option (List String)) (x : String)
    (h : x ∈ idColumnIds idColumn) : pyIsdigitStr x = true := by
  cases idColumn with
  | none => cases h
  | some raw =>
    rw [idColumnIds] at h
    by_cases hall : !raw.isEmpty && raw.all pyIsdigitStr
    · rw [if_pos hall] at h
      exact List.all_eq_true.mp (Bool.and_eq_true .. |>.mp hall).2 x h
    · rw [if_neg hall] at h
      cases h

/-- Claim C10: every scan ID returned by `list_scans` is a non-empty string
of decimal digits — the explicit ID column is accepted only when all its
entries are all-digit strings, and the fallback extracts only digit runs
from `/scans/<digits>` URIs or all-digit entries (deduplicated preserving
first-seen order) — so a scan whose ID contains any non-digit character is
always omitted from the listing. -/
theorem claim_C10 (idColumn : Option (List String)) (rawList : List String)
    (x : String) (hx : x ∈ list_scans idColumn rawList) :
    x.data ≠ [] ∧ x.data.all Char.isDigit = true := by
  have hdig : pyIsdigitStr x = true → x.data ≠ [] ∧ x.data.all Char.isDigit = true := by
    intro h
    rw [pyIsdigitStr, Bool.and_eq_true] at h
    refine ⟨?_, h.2⟩
    intro hnil
    have := h.1
    rw [hnil] at this
    simp at this
  rw [list_scans] at hx
  by_cases hids : !(idColumnIds idColumn).isEmpty
  · rw [if_pos hids] at hx
    exact hdig (mem_idColumnIds idColumn x hx)
  · rw [if_neg hids] at hx
    exact hdig (mem_extractScanIds_digits rawList x
      (mem_dedupKeepFirstGo [] _ x hx))

/-- Witness for claim C10: a fallback listing mixing a `/scans/<id>` URI, a
bare digit entry and a non-digit entry. -/
theorem claim_C10_witness :
    list_scans none ["/data/experiments/E1/scans/34", "7", "foo", "7"] = ["34", "7"]
    ∧ "34" ∈ list_scans none ["/data/experiments/E1/scans/34", "7", "foo", "7"]
    ∧ ("34" : String).data ≠ [] ∧ ("34" : String).data.all Char.isDigit = true := by
  have hmem : "34" ∈ list_scans none ["/data/experiments/E1/scans/34", "7", "foo", "7"] := by
    decide
  exact ⟨rfl, hmem,
    claim_C10 none ["/data/experiments/E1/scans/34", "7", "foo", "7"] "34" hmem⟩

/-! ## Server URL validation: `xnatio/core/validation.py`, `validate_server_url`

`validate_server_url` strips the input (`str.strip()`), parses it with
`urllib.parse.urlparse`, checks scheme and netloc, and returns the stripped
input with trailing slashes removed (`url.rstrip("/")`).  The fragment of
CPython `urllib.parse.urlsplit` that these checks depend on is embedded:
leading/trailing C0-control-or-space stripping, removal of `\t`/`\r`/`\n`,
scheme recognition (first `:` with a leading ASCII letter and
`scheme_chars` before it, lowercased), netloc extraction after `//` up to
the first `/?#`, and the bracket-mismatch `ValueError`.  (The deeper
bracketed-host validation of newer CPython is not modelled;
`validate_server_url` turns every parse exception into a rejection, which
`none` covers.) -/

end Xnatio
